import Mathlib

/-!
Verification of the savings-app backend core (balance accounting and the
transaction-recording endpoint).

The embedding follows the source:
* backend/models.py — the Transaction record and the four ledger queries
  (get_balance_for_account, get_total_balance, get_account_balances,
  get_transaction_history);
* backend/app.py, update_account — request-field extraction with defaults,
  amount cleaning and Decimal parsing, amount validation, timestamp parsing
  with fallback, append, and the success payload.

Modelling choices:
* The SQL store is a list of rows in insertion order; filter_by is List.filter,
  ORDER BY ... DESC with LIMIT is a sort by the date relation followed by take.
* Monetary values are rationals: Python Decimal arithmetic on finite values is
  exact, and the Numeric(15,2) column only ever holds finite decimals.
* Python Decimal string conversion (external standard library) is embedded as
  parseDecimal below, following the documented numeric-string grammar: strip
  surrounding whitespace, drop underscores, then an optional sign followed by
  either a decimal part with optional exponent, an infinity, or a NaN form,
  matched case-insensitively.
* datetime.fromisoformat (external standard library) is an abstract parameter
  parseIso; datetime.now is an abstract parameter now; timestamps are integers.
* The created_at column (record-creation time) is omitted: no claim mentions it.
-/

namespace SavingsApp

/-- A row of the transactions table (backend/models.py, class Transaction). -/
structure Transaction where
  id : Nat
  user_id : Nat
  account_name : String
  transaction_type : String
  amount : ℚ
  note : String
  transaction_date : Int
  deriving DecidableEq, Repr

/-- The filter_by(user_id=..., account_name=...) predicate. -/
def txMatches (user_id : Nat) (account_name : String) (t : Transaction) : Bool :=
  t.user_id == user_id && t.account_name == account_name

/-- Embeds Transaction.get_balance_for_account (models.py lines 71 to 86):
filter the ledger by user and account, then fold from Decimal 0.00 adding
the amount for type add and subtracting it otherwise. -/
def get_balance_for_account (l : List Transaction) (user_id : Nat) (account_name : String) : ℚ :=
  (l.filter (txMatches user_id account_name)).foldl
    (fun balance t => if t.transaction_type == "add" then balance + t.amount else balance - t.amount) 0

/-- Embeds Transaction.get_total_balance (models.py lines 88 to 100):
same fold over all of the transactions of the user. -/
def get_total_balance (l : List Transaction) (user_id : Nat) : ℚ :=
  (l.filter (fun t => t.user_id == user_id)).foldl
    (fun balance t => if t.transaction_type == "add" then balance + t.amount else balance - t.amount) 0

/-- The SELECT DISTINCT account_name query of get_account_balances
(models.py lines 105 to 107): distinct account names among the rows of the
user, in first-appearance order. -/
def distinctAccounts (l : List Transaction) (user_id : Nat) : List String :=
  ((l.filter (fun t => t.user_id == user_id)).map (fun t => t.account_name)).dedup

/-- Embeds Transaction.get_account_balances (models.py lines 102 to 113):
one entry per distinct account name of the user, valued by
get_balance_for_account. A python dict built by insertion is a list of
key-value pairs with distinct keys. -/
def get_account_balances (l : List Transaction) (user_id : Nat) : List (String × ℚ) :=
  (distinctAccounts l user_id).map (fun a => (a, get_balance_for_account l user_id a))

/-- The signed contribution of one row to a balance: plus the amount for
type add, minus the amount otherwise (the else branch of the source). -/
def signedAmount (t : Transaction) : ℚ :=
  if t.transaction_type == "add" then t.amount else -t.amount

/-- Sample rows used to instantiate the quantified theorems. -/
def sampleTx1 : Transaction :=
  { id := 1, user_id := 1, account_name := "Savings", transaction_type := "add",
    amount := 100, note := "", transaction_date := 10 }

def sampleTx2 : Transaction :=
  { id := 2, user_id := 1, account_name := "Savings", transaction_type := "subtract",
    amount := 30, note := "", transaction_date := 20 }

def sampleTx3 : Transaction :=
  { id := 3, user_id := 1, account_name := "Piggy", transaction_type := "add",
    amount := 50, note := "", transaction_date := 15 }

/-- The ORDER BY transaction_date DESC relation: a row comes no later than
another when its date is at least as large. -/
def dateDescOrder (a b : Transaction) : Prop :=
  b.transaction_date ≤ a.transaction_date

instance : DecidableRel dateDescOrder := fun a b =>
  inferInstanceAs (Decidable (b.transaction_date ≤ a.transaction_date))

instance : IsTotal Transaction dateDescOrder :=
  ⟨fun a b => le_total b.transaction_date a.transaction_date⟩

instance : IsTrans Transaction dateDescOrder :=
  ⟨fun _ _ _ h1 h2 => le_trans h2 h1⟩

/-- The rows selected by get_transaction_history before ordering
(models.py lines 118 to 121): filter by user, and by account when the
account argument is present and non-empty (python truthiness). -/
def historyMatching (l : List Transaction) (user_id : Nat) (account_name : Option String) : List Transaction :=
  let base := l.filter (fun t => t.user_id == user_id)
  match account_name with
  | some a => if a = "" then base else base.filter (fun t => t.account_name == a)
  | none => base

/-- Embeds Transaction.get_transaction_history (models.py lines 115 to 123):
matching rows ordered by transaction_date descending, truncated to limit
(default 50). ORDER BY is modelled as a sort by dateDescOrder. -/
def get_transaction_history (l : List Transaction) (user_id : Nat)
    (account_name : Option String := none) (limit : Nat := 50) : List Transaction :=
  (List.insertionSort dateDescOrder (historyMatching l user_id account_name)).take limit

/-- Strip leading and trailing whitespace from a character list (python
str.strip restricted to ASCII whitespace). -/
def stripChars (cs : List Char) : List Char :=
  ((cs.dropWhile Char.isWhitespace).reverse.dropWhile Char.isWhitespace).reverse

/-- Decimal numeric-string normalization: surrounding whitespace stripped,
underscores removed throughout. -/
def decNormalize (s : String) : List Char :=
  (stripChars s.toList).filter (fun c => c ≠ '_')

/-- Longest digit prefix of a character list, and the remainder. -/
def takeDigits : List Char → List Char × List Char
  | [] => ([], [])
  | c :: cs =>
    if c.isDigit then
      let p := takeDigits cs
      (c :: p.1, p.2)
    else ([], c :: cs)

/-- Numeric value of a digit string, most significant digit first. -/
def digitsVal (ds : List Char) : Nat :=
  ds.foldl (fun a c => 10 * a + (c.toNat - 48)) 0

/-- Optional leading sign: whether it is minus, and the remaining characters. -/
def readSign (cs : List Char) : Bool × List Char :=
  match cs with
  | [] => (false, [])
  | c :: r => if c = '+' then (false, r) else if c = '-' then (true, r) else (false, c :: r)

/-- Result of python Decimal string conversion: a finite value collapsed to
its rational value, a signed infinity, or any NaN form. -/
inductive DecValue
  | finite (q : ℚ)
  | inf (neg : Bool)
  | nan
  deriving DecidableEq, Repr

/-- The decimal-part-with-optional-exponent branch of the Decimal grammar:
digits with an optional fractional part (at least one digit overall), then an
optional case-insensitive exponent. -/
def parseFinite (neg : Bool) (cs : List Char) : Option DecValue :=
  let p1 := takeDigits cs
  let fr : Option (List Char) × List Char :=
    match p1.2 with
    | '.' :: rest =>
      let p2 := takeDigits rest
      (some p2.1, p2.2)
    | r => (none, r)
  let d2 := fr.1.getD []
  if p1.1 = [] ∧ d2 = [] then none
  else
    let coeff : ℚ := (digitsVal (p1.1 ++ d2) : ℚ)
    let scaled : Int → DecValue := fun e =>
      .finite ((if neg then -coeff else coeff) * (10 : ℚ) ^ (e - (d2.length : Int)))
    match fr.2 with
    | [] => some (scaled 0)
    | e :: rest =>
      if e = 'e' ∨ e = 'E' then
        let sp := readSign rest
        let p3 := takeDigits sp.2
        if p3.1 ≠ [] ∧ p3.2 = [] then
          some (scaled (if sp.1 then -(digitsVal p3.1 : Int) else (digitsVal p3.1 : Int)))
        else none
      else none

/-- Case-insensitive match of a character list against a lowercase word. -/
def matchesWord (cs : List Char) (w : List Char) : Bool :=
  cs.map Char.toLower == w

/-- The infinity and NaN branches of the Decimal grammar, case-insensitive:
Inf or Infinity, or an optionally signaling NaN with an optional digit
payload. -/
def parseSpecial (neg : Bool) (cs : List Char) : Option DecValue :=
  if matchesWord cs ['i', 'n', 'f'] ∨ matchesWord cs ['i', 'n', 'f', 'i', 'n', 'i', 't', 'y'] then
    some (.inf neg)
  else
    let cs2 := match cs with
      | c :: rest => if c = 's' ∨ c = 'S' then rest else cs
      | [] => cs
    match cs2 with
    | a :: b :: c :: rest =>
      if (a = 'n' ∨ a = 'N') ∧ (b = 'a' ∨ b = 'A') ∧ (c = 'n' ∨ c = 'N')
          ∧ rest.all Char.isDigit then
        some .nan
      else none
    | _ => none

/-- Embeds python Decimal(value) for a string value (external standard
library), following the documented numeric-string grammar on ASCII input:
normalize, read an optional sign, then a finite number, an infinity, or a
NaN; none models the InvalidOperation the constructor raises otherwise. -/
def parseDecimal (s : String) : Option DecValue :=
  let sp := readSign (decNormalize s)
  match parseFinite sp.1 sp.2 with
  | some v => some v
  | none => parseSpecial sp.1 sp.2

/-- Embeds the comma cleaning of the amount string (app.py line 277,
amount_str.replace of comma by nothing): removes every comma. -/
def cleanAmount (s : String) : String :=
  ⟨s.toList.filter (fun c => c ≠ ',')⟩

/-- The amount parse the endpoint performs: comma removal followed by
Decimal conversion (app.py lines 277 to 278). -/
def parseAmountStr (s : String) : Option DecValue :=
  parseDecimal (cleanAmount s)

/-- The parsed amount compares less than or equal to zero (the python test
amount_decimal <= 0; a NaN is excluded because comparing it raises). -/
def DecValue.nonpos : DecValue → Bool
  | .finite q => q ≤ 0
  | .inf neg => neg
  | .nan => false

/-- The request payload of the account update endpoint; none models an
absent field, read with data.get and a default (app.py lines 258 to 263). -/
structure Req where
  accountName : Option String
  amount : Option String
  note : Option String
  dateTime : Option String
  transactionType : Option String
  deriving DecidableEq, Repr

/-- The body of a successful update response (app.py lines 330 to 341): the
message and the data dict. -/
structure SuccessData where
  message : String
  accountName : String
  amount : ℚ
  transactionType : String
  note : String
  dateTime : Int
  newBalance : ℚ
  deriving DecidableEq, Repr

/-- Outcome of the update endpoint: the three 400 validation rejections, the
500 rollback path taken when the store refuses the row (a Numeric(15,2)
column cannot hold an infinity), or the 200 success payload. -/
inductive UpdateOutcome
  | missingFields
  | invalidAmountFormat
  | amountNotPositive
  | persistenceError
  | success (d : SuccessData)
  deriving DecidableEq, Repr

/-- The outcome is one of the 400 validation rejections. -/
def UpdateOutcome.isValidationError : UpdateOutcome → Bool
  | .missingFields => true
  | .invalidAmountFormat => true
  | .amountNotPositive => true
  | _ => false

/-- The outcome is the 200 success response. -/
def UpdateOutcome.isSuccess : UpdateOutcome → Bool
  | .success _ => true
  | _ => false

/-- Embeds the update_account endpoint (app.py lines 249 to 350): extract
fields with defaults, require account name and amount to be non-empty, clean
and Decimal-parse the amount and require it positive (a NaN amount raises in
the comparison and is caught by the same handler as a malformed string; a
positive infinity passes validation but the Numeric(15,2) store then refuses
the insert and the transaction is rolled back), parse the timestamp falling
back to now, append the row, and answer with the echoed fields and the
recomputed balance of the affected account. parseIso abstracts
datetime.fromisoformat, now abstracts datetime.now, nextId is the id the
store assigns to the appended row. -/
def update_account (l : List Transaction) (uid nextId : Nat)
    (parseIso : String → Option Int) (now : Int) (req : Req) :
    List Transaction × UpdateOutcome :=
  let account_name := req.accountName.getD ""
  let amount_str := req.amount.getD ""
  let note := req.note.getD ""
  let date_time_str := req.dateTime.getD ""
  let transaction_type := req.transactionType.getD "add"
  if account_name = "" ∨ amount_str = "" then (l, .missingFields)
  else
    match parseAmountStr amount_str with
    | none => (l, .invalidAmountFormat)
    | some .nan => (l, .invalidAmountFormat)
    | some (.inf true) => (l, .amountNotPositive)
    | some (.inf false) => (l, .persistenceError)
    | some (.finite q) =>
      if q ≤ 0 then (l, .amountNotPositive)
      else
        let transaction_date :=
          if date_time_str ≠ "" then (parseIso (date_time_str.replace "Z" "+00:00")).getD now
          else now
        let t : Transaction :=
          { id := nextId, user_id := uid, account_name := account_name,
            transaction_type := transaction_type, amount := q, note := note,
            transaction_date := transaction_date }
        let l2 := l ++ [t]
        (l2, .success
          { message := (if transaction_type == "add" then "Money added to "
                        else "Money subtracted from ") ++ account_name ++ " successfully",
            accountName := account_name, amount := q,
            transactionType := transaction_type, note := note,
            dateTime := transaction_date,
            newBalance := get_balance_for_account l2 uid account_name })

/-- A valid request used to instantiate the endpoint theorems. -/
def sampleReq : Req :=
  { accountName := some "Savings", amount := some "100.00", note := some "",
    dateTime := none, transactionType := some "add" }

/-- The row the sample request appends when the store assigns id n. -/
def sampleRow (n : Nat) : Transaction :=
  { id := n, user_id := 1, account_name := "Savings", transaction_type := "add",
    amount := 100, note := "", transaction_date := 0 }

/-- The success payload the sample request produces on an empty store. -/
def sampleSuccess : SuccessData :=
  { message := "Money added to Savings successfully", accountName := "Savings",
    amount := 100, transactionType := "add", note := "", dateTime := 0, newBalance := 100 }

/-- Modelled from the spec: the body of a decimal numeral after the optional
sign — plain digits with an optional dot-separated fractional part, at least
one digit in all — and its rational value with the sign applied; none when
the characters are not such a body. -/
def numeralBody (neg : Bool) (cs : List Char) : Option ℚ :=
  let p1 := takeDigits cs
  let sign : ℚ := if neg then -1 else 1
  match p1.2 with
  | [] => if p1.1 = [] then none else some (sign * (digitsVal p1.1 : ℚ))
  | '.' :: rest =>
    let p2 := takeDigits rest
    if p2.2 = [] ∧ ¬(p1.1 = [] ∧ p2.1 = []) then
      some (sign * (digitsVal (p1.1 ++ p2.1) : ℚ) / 10 ^ p2.1.length)
    else none
  | _ => none

/-- Modelled from the spec: a valid non-negative-after-sign decimal numeral —
an optional sign followed by a numeral body — and its rational value; none
when the string is not such a numeral. This renders the spec phrase
"reject any input that is not a valid non-negative-after-sign decimal
numeral" for comparison with what the code accepts. -/
def decimalNumeralValue (s : String) : Option ℚ :=
  let sp := readSign s.toList
  numeralBody sp.1 sp.2

lemma balance_foldl_eq (l : List Transaction) (init : ℚ) :
    l.foldl (fun balance t => if t.transaction_type == "add" then balance + t.amount else balance - t.amount) init
      = init + (l.map signedAmount).sum := by
  induction l generalizing init with
  | nil => simp
  | cons t ts ih =>
    rw [List.map_cons, List.sum_cons, List.foldl_cons]
    simp only [signedAmount]
    by_cases h : t.transaction_type == "add"
    · rw [if_pos h, if_pos h, ih]; ring
    · rw [if_neg h, if_neg h, ih]; ring

lemma get_balance_eq_sum (l : List Transaction) (uid : Nat) (acct : String) :
    get_balance_for_account l uid acct = ((l.filter (txMatches uid acct)).map signedAmount).sum := by
  rw [get_balance_for_account, balance_foldl_eq]
  ring

lemma get_total_eq_sum (l : List Transaction) (uid : Nat) :
    get_total_balance l uid = ((l.filter (fun t => t.user_id == uid)).map signedAmount).sum := by
  rw [get_total_balance, balance_foldl_eq]
  ring

lemma signed_sum_split (m : List Transaction)
    (h : ∀ t ∈ m, t.transaction_type = "add" ∨ t.transaction_type = "subtract") :
    (m.map signedAmount).sum
      = ((m.filter (fun t => t.transaction_type == "add")).map (fun t => t.amount)).sum
        - ((m.filter (fun t => t.transaction_type == "subtract")).map (fun t => t.amount)).sum := by
  induction m with
  | nil => simp
  | cons t ts ih =>
    have ht := h t (by simp)
    have hts : ∀ u ∈ ts, u.transaction_type = "add" ∨ u.transaction_type = "subtract" :=
      fun u hu => h u (by simp [hu])
    rcases ht with h1 | h1 <;>
      simp [signedAmount, h1, List.filter_cons, ih hts] <;> ring

/-- Claim C1: for every ledger and every owner and account name,
get_balance_for_account equals the signed sum over exactly the matching
transactions — amounts of add rows added, amounts of subtract rows
subtracted — and is invariant under any reordering of the ledger, in
particular under interleaving rows of other accounts differently. -/
theorem C1_balance_is_signed_sum (l : List Transaction) (uid : Nat) (acct : String)
    (hvalid : ∀ t ∈ l, t.transaction_type = "add" ∨ t.transaction_type = "subtract") :
    (get_balance_for_account l uid acct =
      (((l.filter (txMatches uid acct)).filter (fun t => t.transaction_type == "add")).map (fun t => t.amount)).sum
      - (((l.filter (txMatches uid acct)).filter (fun t => t.transaction_type == "subtract")).map (fun t => t.amount)).sum)
    ∧ ∀ l', l.Perm l' → get_balance_for_account l uid acct = get_balance_for_account l' uid acct := by
  constructor
  · rw [get_balance_eq_sum]
    exact signed_sum_split _ (fun t htm => hvalid t (List.mem_of_mem_filter htm))
  · intro l' hp
    rw [get_balance_eq_sum, get_balance_eq_sum]
    exact ((hp.filter (txMatches uid acct)).map signedAmount).sum_eq

/-- Claim C1, witnessed on a concrete three-row ledger. -/
theorem C1_balance_is_signed_sum_witness :
    (∀ t ∈ [sampleTx1, sampleTx2, sampleTx3], t.transaction_type = "add" ∨ t.transaction_type = "subtract")
    ∧ ((get_balance_for_account [sampleTx1, sampleTx2, sampleTx3] 1 "Savings" =
        ((([sampleTx1, sampleTx2, sampleTx3].filter (txMatches 1 "Savings")).filter (fun t => t.transaction_type == "add")).map (fun t => t.amount)).sum
        - ((([sampleTx1, sampleTx2, sampleTx3].filter (txMatches 1 "Savings")).filter (fun t => t.transaction_type == "subtract")).map (fun t => t.amount)).sum)
      ∧ ∀ l', [sampleTx1, sampleTx2, sampleTx3].Perm l' →
          get_balance_for_account [sampleTx1, sampleTx2, sampleTx3] 1 "Savings" = get_balance_for_account l' 1 "Savings") :=
  ⟨by decide, C1_balance_is_signed_sum [sampleTx1, sampleTx2, sampleTx3] 1 "Savings" (by decide)⟩

lemma sum_fiber_cons_mem {α β : Type} [DecidableEq β] (f : α → β) (g : α → ℚ)
    (x : α) (S : β → ℚ) :
    ∀ bs : List β, f x ∈ bs → bs.Nodup →
      (bs.map (fun b => if f x = b then g x + S b else S b)).sum = g x + (bs.map S).sum := by
  intro bs
  induction bs with
  | nil => intro h; exact absurd h (List.not_mem_nil _)
  | cons b bs ih =>
    intro hmem hnd
    rcases List.nodup_cons.mp hnd with ⟨hb, hnd2⟩
    rcases List.mem_cons.mp hmem with heq | htl
    · have hrest : ∀ b' ∈ bs, (if f x = b' then g x + S b' else S b') = S b' := by
        intro b' hb'
        rw [if_neg]
        intro hcontr
        rw [heq] at hcontr
        exact hb (hcontr ▸ hb')
      rw [List.map_cons, List.sum_cons, List.map_congr_left hrest, if_pos heq,
        List.map_cons, List.sum_cons]
      ring
    · have hne : f x ≠ b := fun hcontr => hb (hcontr ▸ htl)
      rw [List.map_cons, List.sum_cons, if_neg hne, ih htl hnd2,
        List.map_cons, List.sum_cons]
      ring

lemma sum_fiber_dedup {α β : Type} [DecidableEq β] (f : α → β) (g : α → ℚ) (l : List α) :
    ((l.map f).dedup.map (fun b => ((l.filter (fun a => f a == b)).map g).sum)).sum
      = (l.map g).sum := by
  induction l with
  | nil => simp
  | cons x xs ih =>
    conv_rhs => rw [List.map_cons, List.sum_cons]
    have hstep : ∀ b : β,
        (((x :: xs).filter (fun a => f a == b)).map g).sum
          = if f x = b then g x + ((xs.filter (fun a => f a == b)).map g).sum
            else ((xs.filter (fun a => f a == b)).map g).sum := by
      intro b
      by_cases h : f x = b
      · rw [List.filter_cons, if_pos (by simpa using h), List.map_cons, List.sum_cons, if_pos h]
      · rw [List.filter_cons, if_neg (by simpa using h), if_neg h]
    by_cases hmem : f x ∈ xs.map f
    · rw [List.map_cons, List.dedup_cons_of_mem hmem,
        List.map_congr_left (fun b _ => hstep b),
        sum_fiber_cons_mem f g x _ _ (List.mem_dedup.mpr hmem) (List.nodup_dedup _), ih]
    · rw [List.map_cons, List.dedup_cons_of_not_mem hmem, List.map_cons, List.sum_cons,
        List.map_congr_left (fun b _ => hstep b)]
      have hself : xs.filter (fun a => f a == f x) = [] := by
        rw [List.filter_eq_nil_iff]
        intro a ha hcontr
        exact hmem (List.mem_map.mpr ⟨a, ha, by simpa using hcontr⟩)
      have hrest : ∀ b ∈ (xs.map f).dedup,
          (if f x = b then g x + ((xs.filter (fun a => f a == b)).map g).sum
            else ((xs.filter (fun a => f a == b)).map g).sum)
          = ((xs.filter (fun a => f a == b)).map g).sum := by
        intro b hb
        rw [if_neg]
        intro hcontr
        exact hmem (hcontr ▸ List.mem_dedup.mp hb)
      rw [hstep (f x), if_pos rfl, hself, List.map_congr_left hrest, ih]
      simp

lemma balance_filter_eq (l : List Transaction) (uid : Nat) (a : String) :
    get_balance_for_account l uid a
      = (((l.filter (fun t => t.user_id == uid)).filter (fun t => t.account_name == a)).map signedAmount).sum := by
  rw [get_balance_eq_sum, List.filter_filter]
  congr 2
  apply List.filter_congr
  intro t _
  simp only [txMatches]
  exact Bool.and_comm _ _

/-- Claim C2: for every ledger and owner, get_total_balance equals the sum
over all distinct account names of get_balance_for_account. -/
theorem C2_total_is_sum_of_account_balances (l : List Transaction) (uid : Nat) :
    get_total_balance l uid
      = ((distinctAccounts l uid).map (fun a => get_balance_for_account l uid a)).sum := by
  rw [get_total_eq_sum, distinctAccounts,
    ← sum_fiber_dedup (fun t => t.account_name) signedAmount (l.filter (fun t => t.user_id == uid))]
  congr 1
  apply List.map_congr_left
  intro a _
  rw [balance_filter_eq]

/-- Claim C8: get_account_balances has exactly one entry per distinct account
name holding at least one transaction of the owner, valued by
get_balance_for_account. -/
theorem C8_account_balances_spec (l : List Transaction) (uid : Nat) :
    ((get_account_balances l uid).map Prod.fst).Nodup
    ∧ (∀ a : String,
        a ∈ (get_account_balances l uid).map Prod.fst
          ↔ ∃ t ∈ l, t.user_id = uid ∧ t.account_name = a)
    ∧ ∀ p ∈ get_account_balances l uid, p.2 = get_balance_for_account l uid p.1 := by
  have hfst : (get_account_balances l uid).map Prod.fst = distinctAccounts l uid := by
    rw [get_account_balances]
    induction distinctAccounts l uid with
    | nil => rfl
    | cons a as ih => simp [ih]
  refine ⟨?_, ?_, ?_⟩
  · rw [hfst, distinctAccounts]
    exact List.nodup_dedup _
  · intro a
    rw [hfst, distinctAccounts, List.mem_dedup, List.mem_map]
    constructor
    · rintro ⟨t, htm, rfl⟩
      rcases List.mem_filter.mp htm with ⟨htl, hu⟩
      exact ⟨t, htl, by simpa using hu, rfl⟩
    · rintro ⟨t, htl, hu, rfl⟩
      exact ⟨t, List.mem_filter.mpr ⟨htl, by simpa using hu⟩, rfl⟩
  · intro p hp
    rcases List.mem_map.mp hp with ⟨a, _, rfl⟩
    rfl

/-- Claim C8, witnessed on a concrete three-row ledger. -/
theorem C8_account_balances_spec_witness :
    ((get_account_balances [sampleTx1, sampleTx2, sampleTx3] 1).map Prod.fst).Nodup
    ∧ (∀ a : String,
        a ∈ (get_account_balances [sampleTx1, sampleTx2, sampleTx3] 1).map Prod.fst
          ↔ ∃ t ∈ [sampleTx1, sampleTx2, sampleTx3], t.user_id = 1 ∧ t.account_name = a)
    ∧ ∀ p ∈ get_account_balances [sampleTx1, sampleTx2, sampleTx3] 1,
        p.2 = get_balance_for_account [sampleTx1, sampleTx2, sampleTx3] 1 p.1 :=
  C8_account_balances_spec [sampleTx1, sampleTx2, sampleTx3] 1

/-- Claim C7: the history query returns matching rows ordered newest
transaction_date first, at most limit of them (default 50), drawn from the
matching rows; when the limit is at least one and a matching row exists, the
first returned row has the maximal transaction_date among all matching rows —
so with limit one it is exactly the single newest record. -/
theorem C7_history_query (l : List Transaction) (uid : Nat) (acct : Option String) (limit : Nat) :
    List.Sorted dateDescOrder (get_transaction_history l uid acct limit)
    ∧ (get_transaction_history l uid acct limit).length = min limit (historyMatching l uid acct).length
    ∧ (get_transaction_history l uid acct limit).Subperm (historyMatching l uid acct)
    ∧ (1 ≤ limit → historyMatching l uid acct ≠ [] →
        ∃ t, (get_transaction_history l uid acct limit).head? = some t
          ∧ t ∈ historyMatching l uid acct
          ∧ ∀ s ∈ historyMatching l uid acct, s.transaction_date ≤ t.transaction_date)
    ∧ get_transaction_history l uid acct = get_transaction_history l uid acct 50 := by
  have hperm := List.perm_insertionSort dateDescOrder (historyMatching l uid acct)
  have hsorted := List.sorted_insertionSort dateDescOrder (historyMatching l uid acct)
  refine ⟨?_, ?_, ?_, ?_, rfl⟩
  · exact List.Pairwise.sublist (List.take_sublist limit _) hsorted
  · rw [get_transaction_history, List.length_take, hperm.length_eq]
  · exact ((List.take_sublist limit _).subperm).trans hperm.subperm
  · intro hlim hne
    rcases hs : List.insertionSort dateDescOrder (historyMatching l uid acct) with _ | ⟨t, rest⟩
    · exact absurd (hs ▸ hperm).symm.eq_nil hne
    · obtain ⟨k, rfl⟩ : ∃ k, limit = k + 1 := ⟨limit - 1, by omega⟩
      refine ⟨t, ?_, ?_, ?_⟩
      · rw [get_transaction_history, hs, List.take_succ_cons, List.head?_cons]
      · exact (hs ▸ hperm).subset (List.mem_cons_self t rest)
      · intro s hsm
        have hsmem : s ∈ t :: rest := (hs ▸ hperm).mem_iff.mpr hsm
        rcases List.mem_cons.mp hsmem with rfl | hr
        · exact le_refl _
        · exact List.rel_of_sorted_cons (hs ▸ hsorted) s hr

/-- Claim C7, witnessed on a concrete three-row ledger with limit one. -/
theorem C7_history_query_witness :
    List.Sorted dateDescOrder (get_transaction_history [sampleTx1, sampleTx2, sampleTx3] 1 none 1)
    ∧ (get_transaction_history [sampleTx1, sampleTx2, sampleTx3] 1 none 1).length
        = min 1 (historyMatching [sampleTx1, sampleTx2, sampleTx3] 1 none).length
    ∧ (get_transaction_history [sampleTx1, sampleTx2, sampleTx3] 1 none 1).Subperm
        (historyMatching [sampleTx1, sampleTx2, sampleTx3] 1 none)
    ∧ (1 ≤ 1 → historyMatching [sampleTx1, sampleTx2, sampleTx3] 1 none ≠ [] →
        ∃ t, (get_transaction_history [sampleTx1, sampleTx2, sampleTx3] 1 none 1).head? = some t
          ∧ t ∈ historyMatching [sampleTx1, sampleTx2, sampleTx3] 1 none
          ∧ ∀ s ∈ historyMatching [sampleTx1, sampleTx2, sampleTx3] 1 none,
              s.transaction_date ≤ t.transaction_date)
    ∧ get_transaction_history [sampleTx1, sampleTx2, sampleTx3] 1 none
        = get_transaction_history [sampleTx1, sampleTx2, sampleTx3] 1 none 50 :=
  C7_history_query [sampleTx1, sampleTx2, sampleTx3] 1 none 1

/-- Claim C6: the amount strings with and without the thousands separator
parse to the identical decimal value. -/
theorem C6_comma_insensitive :
    parseAmountStr "1,234.50" = parseAmountStr "1234.50"
    ∧ parseAmountStr "1,234.50" = some (.finite (2469 / 2)) := by
  have h : ∀ s : String, s = "1,234.50" ∨ s = "1234.50" →
      parseAmountStr s = some (.finite (2469 / 2)) := by
    rintro s (rfl | rfl) <;>
      · simp [parseAmountStr, parseDecimal, cleanAmount, decNormalize, stripChars, readSign,
          parseFinite, parseSpecial, matchesWord, takeDigits, digitsVal]
        all_goals norm_num
  exact ⟨(h _ (Or.inl rfl)).trans (h _ (Or.inr rfl)).symm, h _ (Or.inl rfl)⟩

/-- Claim C3: whenever the amount string of the request parses to a value
less than or equal to zero, the endpoint answers with a validation error and
the transaction store is left exactly unchanged. -/
theorem C3_nonpositive_amount_rejected (l : List Transaction) (uid nextId : Nat)
    (parseIso : String → Option Int) (now : Int) (req : Req)
    (h : ∃ v, parseAmountStr (req.amount.getD "") = some v ∧ v.nonpos = true) :
    ((update_account l uid nextId parseIso now req).2 = .missingFields
      ∨ (update_account l uid nextId parseIso now req).2 = .amountNotPositive)
    ∧ (update_account l uid nextId parseIso now req).1 = l := by
  obtain ⟨v, hv, hnp⟩ := h
  by_cases hacc : req.accountName.getD "" = "" ∨ req.amount.getD "" = ""
  · simp [update_account, hacc]
  · cases v with
    | finite q =>
      have hq : q ≤ 0 := by simpa [DecValue.nonpos] using hnp
      simp [update_account, hacc, hv, hq]
    | inf neg =>
      have hneg : neg = true := by simpa [DecValue.nonpos] using hnp
      subst hneg
      simp [update_account, hacc, hv]
    | nan => simp [DecValue.nonpos] at hnp

/-- Claim C3, witnessed on a concrete request with a negative amount. -/
theorem C3_nonpositive_amount_rejected_witness :
    (∃ v, parseAmountStr (({ sampleReq with amount := some "-25" } : Req).amount.getD "") = some v
        ∧ v.nonpos = true)
    ∧ (((update_account [] 1 1 (fun _ => none) 0 { sampleReq with amount := some "-25" }).2 = .missingFields
        ∨ (update_account [] 1 1 (fun _ => none) 0 { sampleReq with amount := some "-25" }).2 = .amountNotPositive)
      ∧ (update_account [] 1 1 (fun _ => none) 0 { sampleReq with amount := some "-25" }).1 = []) := by
  have hp : parseAmountStr (({ sampleReq with amount := some "-25" } : Req).amount.getD "")
      = some (.finite (-25)) := by
    simp [sampleReq, parseAmountStr, parseDecimal, cleanAmount, decNormalize, stripChars, readSign,
      parseFinite, parseSpecial, matchesWord, takeDigits, digitsVal]
  have hnp : (DecValue.finite (-25)).nonpos = true := by
    simp [DecValue.nonpos]
  exact ⟨⟨_, hp, hnp⟩,
    C3_nonpositive_amount_rejected [] 1 1 (fun _ => none) 0 { sampleReq with amount := some "-25" }
      ⟨_, hp, hnp⟩⟩

/-- Claim C9: an unparsable timestamp string is not an error — the endpoint
behaves exactly as if the timestamp were absent — and an absent timestamp
makes the recorded and echoed transaction date the current time. -/
theorem C9_timestamp_fallback (l : List Transaction) (uid nextId : Nat)
    (parseIso : String → Option Int) (now : Int) (req : Req) (s : String) :
    (req.dateTime = some s → s ≠ "" → parseIso (s.replace "Z" "+00:00") = none →
      update_account l uid nextId parseIso now req
        = update_account l uid nextId parseIso now { req with dateTime := none })
    ∧ (req.dateTime = none →
        ∀ d, (update_account l uid nextId parseIso now req).2 = .success d → d.dateTime = now) := by
  constructor
  · intro h1 h2 h3
    rw [update_account, update_account]
    simp only [h1, Option.getD_some, Option.getD_none, if_neg (by simp : ¬("" : String) ≠ ""),
      if_pos h2, h3]
  · intro h0 d hsucc
    by_cases hacc : req.accountName.getD "" = "" ∨ req.amount.getD "" = ""
    · simp [update_account, hacc] at hsucc
    · rcases hp : parseAmountStr (req.amount.getD "") with _ | v
      · simp [update_account, hacc, hp] at hsucc
      · cases v with
        | nan => simp [update_account, hacc, hp] at hsucc
        | inf neg => cases neg <;> simp [update_account, hacc, hp] at hsucc
        | finite q =>
          by_cases hq : q ≤ 0
          · simp [update_account, hacc, hp, hq] at hsucc
          · simp [update_account, hacc, hp, hq, h0] at hsucc
            rw [← hsucc]

/-- Claim C9, witnessed with a parser that fails on the given timestamp. -/
theorem C9_timestamp_fallback_witness :
    (({ sampleReq with dateTime := some "garbage" } : Req).dateTime = some "garbage" →
      "garbage" ≠ "" → (fun _ => (none : Option Int)) ("garbage".replace "Z" "+00:00") = none →
      update_account [] 1 1 (fun _ => none) 7 { sampleReq with dateTime := some "garbage" }
        = update_account [] 1 1 (fun _ => none) 7
            { { sampleReq with dateTime := some "garbage" } with dateTime := none })
    ∧ (({ sampleReq with dateTime := some "garbage" } : Req).dateTime = none →
        ∀ d, (update_account [] 1 1 (fun _ => none) 7 { sampleReq with dateTime := some "garbage" }).2
            = .success d → d.dateTime = 7) :=
  C9_timestamp_fallback [] 1 1 (fun _ => none) 7 { sampleReq with dateTime := some "garbage" } "garbage"

/-- Claim C10: the transaction kind is never validated at the endpoint — an
absent transactionType behaves exactly as the explicit string add, success
does not depend on the kind string, any kind string is stored and echoed
unchanged — and a stored kind other than add is subtracted, by both the
per-account and the total balance computations. -/
theorem C10_kind_unvalidated (l : List Transaction) (uid nextId : Nat)
    (parseIso : String → Option Int) (now : Int) (req : Req) (ty : String) :
    (update_account l uid nextId parseIso now { req with transactionType := none }
      = update_account l uid nextId parseIso now { req with transactionType := some "add" })
    ∧ ((update_account l uid nextId parseIso now { req with transactionType := some ty }).2.isSuccess
      = (update_account l uid nextId parseIso now { req with transactionType := some "add" }).2.isSuccess)
    ∧ (∀ d, (update_account l uid nextId parseIso now { req with transactionType := some ty }).2 = .success d →
        d.transactionType = ty
        ∧ ∃ t : Transaction,
            (update_account l uid nextId parseIso now { req with transactionType := some ty }).1 = l ++ [t]
            ∧ t.transaction_type = ty)
    ∧ (∀ t : Transaction, t.transaction_type ≠ "add" → t.user_id = uid →
        (∀ acct : String, t.account_name = acct →
          get_balance_for_account (t :: l) uid acct = get_balance_for_account l uid acct - t.amount)
        ∧ get_total_balance (t :: l) uid = get_total_balance l uid - t.amount) := by
  refine ⟨rfl, ?_, ?_, ?_⟩
  · by_cases hacc : req.accountName.getD "" = "" ∨ req.amount.getD "" = ""
    · simp [update_account, hacc]
    · rcases hp : parseAmountStr (req.amount.getD "") with _ | v
      · simp [update_account, hacc, hp]
      · cases v with
        | nan => simp [update_account, hacc, hp]
        | inf neg => cases neg <;> simp [update_account, hacc, hp, UpdateOutcome.isSuccess]
        | finite q =>
          by_cases hq : q ≤ 0 <;> simp [update_account, hacc, hp, hq, UpdateOutcome.isSuccess]
  · intro d hsucc
    by_cases hacc : req.accountName.getD "" = "" ∨ req.amount.getD "" = ""
    · simp [update_account, hacc] at hsucc
    · rcases hp : parseAmountStr (req.amount.getD "") with _ | v
      · simp [update_account, hacc, hp] at hsucc
      · cases v with
        | nan => simp [update_account, hacc, hp] at hsucc
        | inf neg => cases neg <;> simp [update_account, hacc, hp] at hsucc
        | finite q =>
          by_cases hq : q ≤ 0
          · simp [update_account, hacc, hp, hq] at hsucc
          · simp only [update_account] at hsucc
            rw [if_neg hacc] at hsucc
            simp only [hp] at hsucc
            rw [if_neg hq] at hsucc
            simp only [UpdateOutcome.success.injEq, Option.getD_some] at hsucc
            refine ⟨?_, ?_⟩
            · rw [← hsucc]
            · have h1 : (update_account l uid nextId parseIso now { req with transactionType := some ty }).1
                  = l ++ [{ id := nextId, user_id := uid, account_name := req.accountName.getD "",
                            transaction_type := ty, amount := q, note := req.note.getD "",
                            transaction_date := if req.dateTime.getD "" ≠ ""
                              then (parseIso ((req.dateTime.getD "").replace "Z" "+00:00")).getD now
                              else now }] := by
                simp only [update_account, Option.getD_some]
                rw [if_neg hacc]
                simp only [hp]
                rw [if_neg hq]
              exact ⟨_, h1, rfl⟩
  · intro t hty huid
    have hsgn : signedAmount t = -t.amount := by
      simp [signedAmount, hty]
    constructor
    · intro acct hacct
      have hm : txMatches uid acct t = true := by
        simp [txMatches, huid, hacct]
      rw [get_balance_eq_sum, get_balance_eq_sum, List.filter_cons_of_pos hm,
        List.map_cons, List.sum_cons, hsgn]
      ring
    · rw [get_total_eq_sum, get_total_eq_sum]
      have hflt : List.filter (fun x => x.user_id == uid) (t :: l)
          = t :: List.filter (fun x => x.user_id == uid) l := by
        simp [List.filter_cons, huid]
      rw [hflt, List.map_cons, List.sum_cons, hsgn]
      ring

/-- Claim C10, witnessed with the kind string deposit, which is neither add
nor subtract. -/
theorem C10_kind_unvalidated_witness :
    (update_account [] 1 1 (fun _ => none) 0 { sampleReq with transactionType := none }
      = update_account [] 1 1 (fun _ => none) 0 { sampleReq with transactionType := some "add" })
    ∧ ((update_account [] 1 1 (fun _ => none) 0 { sampleReq with transactionType := some "deposit" }).2.isSuccess
      = (update_account [] 1 1 (fun _ => none) 0 { sampleReq with transactionType := some "add" }).2.isSuccess)
    ∧ (∀ d, (update_account [] 1 1 (fun _ => none) 0 { sampleReq with transactionType := some "deposit" }).2 = .success d →
        d.transactionType = "deposit"
        ∧ ∃ t : Transaction,
            (update_account [] 1 1 (fun _ => none) 0 { sampleReq with transactionType := some "deposit" }).1 = [] ++ [t]
            ∧ t.transaction_type = "deposit")
    ∧ (∀ t : Transaction, t.transaction_type ≠ "add" → t.user_id = 1 →
        (∀ acct : String, t.account_name = acct →
          get_balance_for_account (t :: []) 1 acct = get_balance_for_account [] 1 acct - t.amount)
        ∧ get_total_balance (t :: []) 1 = get_total_balance [] 1 - t.amount) :=
  C10_kind_unvalidated [] 1 1 (fun _ => none) 0 sampleReq "deposit"

lemma update_sample (n : Nat) :
    update_account [] 1 n (fun _ => none) 0 sampleReq = ([sampleRow n], .success sampleSuccess) := by
  have hp : parseAmountStr "100.00" = some (.finite 100) := by
    simp [parseAmountStr, parseDecimal, cleanAmount, decNormalize, stripChars, readSign,
      parseFinite, parseSpecial, matchesWord, takeDigits, digitsVal]
    all_goals norm_num
  norm_num [update_account, sampleReq, hp, sampleRow, sampleSuccess,
    get_balance_for_account, txMatches]
  rw [if_neg (by decide : ¬(("Savings" : String) = "" ∨ ("100.00" : String) = ""))]
  rfl

/-- Claim C4 counterexample: two appends that are assigned different
transaction ids return identical responses, so the response cannot contain
the id of the newly appended transaction, although the appended rows differ. -/
theorem C4_counterexample :
    (update_account [] 1 1 (fun _ => none) 0 sampleReq).2
      = (update_account [] 1 2 (fun _ => none) 0 sampleReq).2
    ∧ (update_account [] 1 1 (fun _ => none) 0 sampleReq).1
      ≠ (update_account [] 1 2 (fun _ => none) 0 sampleReq).1 := by
  rw [update_sample 1, update_sample 2]
  refine ⟨rfl, ?_⟩
  intro h
  simp [sampleRow] at h

/-- Claim C4 (amended): a successful update appends exactly one row — carrying
the id the store assigned — and returns the stored fields together with a new
balance equal to get_balance_for_account over the store after the append; the
assigned id itself is not part of the response. -/
theorem C4_amended_success_payload (l : List Transaction) (uid nextId : Nat)
    (parseIso : String → Option Int) (now : Int) (req : Req) (d : SuccessData)
    (h : (update_account l uid nextId parseIso now req).2 = .success d) :
    (update_account l uid nextId parseIso now req).1
        = l ++ [{ id := nextId, user_id := uid, account_name := d.accountName,
                  transaction_type := d.transactionType, amount := d.amount,
                  note := d.note, transaction_date := d.dateTime }]
    ∧ d.newBalance
        = get_balance_for_account (update_account l uid nextId parseIso now req).1 uid d.accountName := by
  by_cases hacc : req.accountName.getD "" = "" ∨ req.amount.getD "" = ""
  · simp [update_account, hacc] at h
  · rcases hp : parseAmountStr (req.amount.getD "") with _ | v
    · simp [update_account, hacc, hp] at h
    · cases v with
      | nan => simp [update_account, hacc, hp] at h
      | inf neg => cases neg <;> simp [update_account, hacc, hp] at h
      | finite q =>
        by_cases hq : q ≤ 0
        · simp [update_account, hacc, hp, hq] at h
        · simp only [update_account] at h
          rw [if_neg hacc] at h
          simp only [hp] at h
          rw [if_neg hq] at h
          simp only [UpdateOutcome.success.injEq] at h
          subst h
          constructor
          · simp only [update_account]
            rw [if_neg hacc]
            simp only [hp]
            rw [if_neg hq]
          · simp only [update_account]
            rw [if_neg hacc]
            simp only [hp]
            rw [if_neg hq]

/-- Claim C4 (amended), witnessed on the concrete sample request. -/
theorem C4_amended_success_payload_witness :
    (update_account [] 1 1 (fun _ => none) 0 sampleReq).1
        = [] ++ [{ id := 1, user_id := 1, account_name := sampleSuccess.accountName,
                   transaction_type := sampleSuccess.transactionType, amount := sampleSuccess.amount,
                   note := sampleSuccess.note, transaction_date := sampleSuccess.dateTime }]
    ∧ sampleSuccess.newBalance
        = get_balance_for_account (update_account [] 1 1 (fun _ => none) 0 sampleReq).1 1
            sampleSuccess.accountName :=
  C4_amended_success_payload [] 1 1 (fun _ => none) 0 sampleReq sampleSuccess
    (by rw [update_sample 1])

lemma takeDigits_append : ∀ cs : List Char, (takeDigits cs).1 ++ (takeDigits cs).2 = cs := by
  intro cs
  induction cs with
  | nil => rfl
  | cons c cs ih =>
    by_cases h : c.isDigit <;> simp [takeDigits, h, ih]

lemma takeDigits_digits : ∀ cs : List Char, ∀ c ∈ (takeDigits cs).1, c.isDigit = true := by
  intro cs
  induction cs with
  | nil => intro c hc; simp [takeDigits] at hc
  | cons a as ih =>
    intro c hc
    by_cases h : a.isDigit
    · simp only [takeDigits, h, if_true] at hc
      rcases List.mem_cons.mp hc with rfl | hc2
      · exact h
      · exact ih c hc2
    · simp [takeDigits, h] at hc

lemma digit_not_ws {c : Char} (h : c.isDigit = true) : c.isWhitespace = false := by
  cases hws : c.isWhitespace
  · rfl
  · exfalso
    simp [Char.isWhitespace] at hws
    have h4 : c = ' ' ∨ c = '\t' ∨ c = '\x0d' ∨ c = '\n' := by tauto
    rcases h4 with h1 | h1 | h1 | h1 <;> subst h1 <;> exact absurd h (by decide)

lemma digit_not_underscore {c : Char} (h : c.isDigit = true) : c ≠ '_' := by
  intro he
  subst he
  exact absurd h (by decide)

lemma dropWhile_eq_self_of (p : Char → Bool) (cs : List Char)
    (h : ∀ c ∈ cs, p c = false) : cs.dropWhile p = cs := by
  cases cs with
  | nil => rfl
  | cons a l => rw [List.dropWhile_cons, h a (by simp)]; simp

lemma stripChars_eq_self (cs : List Char) (h : ∀ c ∈ cs, c.isWhitespace = false) :
    stripChars cs = cs := by
  rw [stripChars, dropWhile_eq_self_of _ _ h,
    dropWhile_eq_self_of _ _ (fun c hc => h c (List.mem_reverse.mp hc)), List.reverse_reverse]

lemma decNormalize_eq_self (s : String)
    (h : ∀ c ∈ s.toList, c.isWhitespace = false ∧ c ≠ '_') :
    decNormalize s = s.toList := by
  rw [decNormalize, stripChars_eq_self _ (fun c hc => (h c hc).1)]
  rw [List.filter_eq_self]
  intro c hc
  simpa using (h c hc).2

lemma readSign_cases (cs : List Char) :
    (readSign cs = (false, cs))
    ∨ (∃ r, cs = '+' :: r ∧ readSign cs = (false, r))
    ∨ (∃ r, cs = '-' :: r ∧ readSign cs = (true, r)) := by
  cases cs with
  | nil => exact Or.inl rfl
  | cons c r =>
    by_cases h1 : c = '+'
    · subst h1
      exact Or.inr (Or.inl ⟨r, rfl, by simp [readSign]⟩)
    · by_cases h2 : c = '-'
      · subst h2
        exact Or.inr (Or.inr ⟨r, rfl, by simp [readSign]⟩)
      · exact Or.inl (by simp [readSign, h1, h2])

lemma parseFinite_of_numeralBody (neg : Bool) (cs : List Char) (v : ℚ)
    (h : numeralBody neg cs = some v) :
    parseFinite neg cs = some (.finite v) := by
  simp only [numeralBody] at h
  simp only [parseFinite]
  split at h
  · rename_i heq
    by_cases h1 : (takeDigits cs).1 = []
    · rw [if_pos h1] at h
      exact absurd h (by simp)
    · rw [if_neg h1] at h
      obtain rfl := Option.some_inj.mp h
      simp only [heq, Option.getD_none, List.append_nil]
      rw [if_neg (by simp [h1])]
      cases neg <;>
        · simp only [Bool.false_eq_true, if_false, if_true, Option.some_inj,
            DecValue.finite.injEq]
          norm_num
  · rename_i rest heq
    by_cases hcond : (takeDigits rest).2 = [] ∧ ¬((takeDigits cs).1 = [] ∧ (takeDigits rest).1 = [])
    · rw [if_pos hcond] at h
      obtain rfl := Option.some_inj.mp h
      simp only [heq, hcond.1, Option.getD_some]
      rw [if_neg (by simpa using hcond.2)]
      have hz : ((10 : ℚ) ^ ((0 : ℤ) - ((takeDigits rest).1.length : ℤ)))
          = ((10 : ℚ) ^ (takeDigits rest).1.length)⁻¹ := by
        rw [zero_sub, zpow_neg, zpow_natCast]
      cases neg <;>
        · simp only [Bool.false_eq_true, if_false, if_true, Option.some_inj,
            DecValue.finite.injEq, hz]
          rw [div_eq_mul_inv]
          ring
    · rw [if_neg hcond] at h
      exact absurd h (by simp)
  · exact absurd h (by simp)

lemma numeralBody_chars (neg : Bool) (cs : List Char) (v : ℚ)
    (h : numeralBody neg cs = some v) :
    ∀ c ∈ cs, c.isDigit = true ∨ c = '.' := by
  intro c hc
  have hd := takeDigits_append cs
  simp only [numeralBody] at h
  split at h
  · rename_i heq
    rw [heq, List.append_nil] at hd
    exact Or.inl (takeDigits_digits cs c (by rw [hd]; exact hc))
  · rename_i rest heq
    by_cases hcond : (takeDigits rest).2 = [] ∧ ¬((takeDigits cs).1 = [] ∧ (takeDigits rest).1 = [])
    · have hd2 := takeDigits_append rest
      rw [hcond.1, List.append_nil] at hd2
      rw [heq] at hd
      rw [← hd] at hc
      rcases List.mem_append.mp hc with h1 | h1
      · exact Or.inl (takeDigits_digits cs c h1)
      · rcases List.mem_cons.mp h1 with rfl | h2
        · exact Or.inr rfl
        · exact Or.inl (takeDigits_digits rest c (by rw [hd2]; exact h2))
    · rw [if_neg hcond] at h
      exact absurd h (by simp)
  · exact absurd h (by simp)

lemma numeral_char_props {c : Char} (h : c.isDigit = true ∨ c = '.') :
    c.isWhitespace = false ∧ c ≠ '_' := by
  rcases h with h | rfl
  · exact ⟨digit_not_ws h, digit_not_underscore h⟩
  · exact ⟨by decide, by decide⟩

/-- A string recognized as a decimal numeral is accepted by the Decimal
grammar with the same value. -/
lemma numeral_parses (s : String) (v : ℚ) (h : decimalNumeralValue s = some v) :
    parseDecimal s = some (.finite v) := by
  rw [decimalNumeralValue] at h
  rcases readSign_cases s.toList with hs | ⟨r, hsr, hs⟩ | ⟨r, hsr, hs⟩ <;>
    rw [hs] at h
  · have hchars : ∀ c ∈ s.toList, c.isWhitespace = false ∧ c ≠ '_' :=
      fun c hc => numeral_char_props (numeralBody_chars _ _ _ h c hc)
    rw [parseDecimal, decNormalize_eq_self s hchars, hs,
      parseFinite_of_numeralBody _ _ _ h]
  · have hchars : ∀ c ∈ s.toList, c.isWhitespace = false ∧ c ≠ '_' := by
      intro c hc
      rw [hsr] at hc
      rcases List.mem_cons.mp hc with rfl | hc2
      · exact ⟨by decide, by decide⟩
      · exact numeral_char_props (numeralBody_chars _ _ _ h c hc2)
    rw [parseDecimal, decNormalize_eq_self s hchars, hs,
      parseFinite_of_numeralBody _ _ _ h]
  · have hchars : ∀ c ∈ s.toList, c.isWhitespace = false ∧ c ≠ '_' := by
      intro c hc
      rw [hsr] at hc
      rcases List.mem_cons.mp hc with rfl | hc2
      · exact ⟨by decide, by decide⟩
      · exact numeral_char_props (numeralBody_chars _ _ _ h c hc2)
    rw [parseDecimal, decNormalize_eq_self s hchars, hs,
      parseFinite_of_numeralBody _ _ _ h]

/-- Claim C5 counterexample: the amount string 1e3 is not a decimal numeral,
yet the Decimal grammar accepts it with value 1000 and the endpoint records
a transaction instead of rejecting the request. -/
theorem C5_counterexample :
    decimalNumeralValue (cleanAmount "1e3") = none
    ∧ parseAmountStr "1e3" = some (.finite 1000)
    ∧ ((update_account [] 1 1 (fun _ => none) 0 { sampleReq with amount := some "1e3" }).2).isSuccess = true
    ∧ (update_account [] 1 1 (fun _ => none) 0 { sampleReq with amount := some "1e3" }).1 ≠ [] := by
  have hp : parseAmountStr "1e3" = some (.finite 1000) := by
    simp [parseAmountStr, parseDecimal, cleanAmount, decNormalize, stripChars, readSign,
      parseFinite, parseSpecial, matchesWord, takeDigits, digitsVal]
    all_goals norm_num
  have h2 : (update_account [] 1 1 (fun _ => none) 0 { sampleReq with amount := some "1e3" })
      = ([{ id := 1, user_id := 1, account_name := "Savings", transaction_type := "add",
            amount := 1000, note := "", transaction_date := 0 }],
         .success { message := "Money added to Savings successfully", accountName := "Savings",
                    amount := 1000, transactionType := "add", note := "", dateTime := 0,
                    newBalance := 1000 }) := by
    norm_num [update_account, sampleReq, hp, get_balance_for_account, txMatches]
    rw [if_neg (by decide : ¬(("Savings" : String) = "" ∨ ("1e3" : String) = ""))]
    rfl
  refine ⟨by decide, hp, by rw [h2]; rfl, by rw [h2]; simp⟩

/-- Claim C5 (amended): after comma stripping the endpoint accepts exactly
the Decimal numeric-string grammar, which is broader than plain decimal
numerals (for example exponent notation is accepted): a string the grammar
rejects gets the invalid-amount validation error and leaves the store
unchanged, and every positive plain decimal numeral is accepted. -/
theorem C5_amended_parse_contract (l : List Transaction) (uid nextId : Nat)
    (parseIso : String → Option Int) (now : Int) (req : Req) (s : String) :
    (req.amount = some s → req.accountName.getD "" ≠ "" → s ≠ "" →
      parseAmountStr s = none →
        (update_account l uid nextId parseIso now req).2 = .invalidAmountFormat
        ∧ (update_account l uid nextId parseIso now req).1 = l)
    ∧ (∀ v : ℚ, req.amount = some s → req.accountName.getD "" ≠ "" →
        decimalNumeralValue (cleanAmount s) = some v → 0 < v →
        ((update_account l uid nextId parseIso now req).2).isSuccess = true) := by
  constructor
  · intro h1 h2 h3 h4
    have hacc : ¬(req.accountName.getD "" = "" ∨ s = "") := by
      simp [h2, h3]
    constructor <;> simp [update_account, hacc, h1, h4]
  · intro v h1 h2 hnum hpos
    have hs : s ≠ "" := by
      rintro rfl
      simp only [show cleanAmount "" = "" from rfl,
        show decimalNumeralValue "" = (none : Option ℚ) from rfl] at hnum
      exact Option.noConfusion hnum
    have hparse : parseAmountStr s = some (.finite v) := by
      rw [parseAmountStr]
      exact numeral_parses _ _ hnum
    have hacc : ¬(req.accountName.getD "" = "" ∨ s = "") := by
      simp [h2, hs]
    have hq : ¬ v ≤ 0 := not_le.mpr hpos
    simp [update_account, hacc, h1, hparse, hq, UpdateOutcome.isSuccess]

/-- Claim C5 (amended), witnessed on a concrete numeral request. -/
theorem C5_amended_parse_contract_witness :
    (({ sampleReq with amount := some "12.5" } : Req).amount = some "12.5" →
      ({ sampleReq with amount := some "12.5" } : Req).accountName.getD "" ≠ "" → "12.5" ≠ "" →
      parseAmountStr "12.5" = none →
        (update_account [] 1 1 (fun _ => none) 0 { sampleReq with amount := some "12.5" }).2 = .invalidAmountFormat
        ∧ (update_account [] 1 1 (fun _ => none) 0 { sampleReq with amount := some "12.5" }).1 = [])
    ∧ (∀ v : ℚ, ({ sampleReq with amount := some "12.5" } : Req).amount = some "12.5" →
        ({ sampleReq with amount := some "12.5" } : Req).accountName.getD "" ≠ "" →
        decimalNumeralValue (cleanAmount "12.5") = some v → 0 < v →
        ((update_account [] 1 1 (fun _ => none) 0 { sampleReq with amount := some "12.5" }).2).isSuccess = true) :=
  C5_amended_parse_contract [] 1 1 (fun _ => none) 0 { sampleReq with amount := some "12.5" } "12.5"

end SavingsApp
